import Mathlib

/-!
# Verification of the `dash` refresh pipeline

Shallow embedding of the Rust sources `src/project.rs`, `src/gui.rs` and
`src/main.rs` of the `dash` repository, together with proofs about the
parsers, the fetch/update cycle, the background worker and the
staleness-scan coordinator.

Modelling conventions, used consistently below:
* file contents are modelled as the list of their lines (Rust
  `contents.lines()`), points `[f64; 2]` as pairs of rationals `ℚ × ℚ`
  (the numeric literals appearing in the claims are all exactly
  representable, so no rounding is involved),
* `Instant` is modelled as a natural number of nanoseconds;
  `Duration::as_secs` is truncating division by `10 ^ 9`, and
  `Instant::duration_since` saturates at zero exactly like `Nat`
  subtraction,
* `DateTime<Local>` is an opaque integer timestamp,
* a Rust function that can panic (a failed `unwrap`, an out-of-bounds
  index) is embedded as an `Option`-valued function returning `none` on
  the panicking inputs; an `anyhow::Result` error is a distinct outcome
  (`RunResult.err`) since the `?` operator propagates it while a panic
  unwinds past it.
-/

/-! ## String primitives (models of the Rust `str` operations used) -/

/-- Rust `char::is_ascii_whitespace`: space, tab, newline, form feed,
carriage return. -/
def isAsciiWs (c : Char) : Bool :=
  c = ' ' || c = '\t' || c = '\n' || c = '\x0C' || c = '\r'

/-- Worker for `splitWhitespace`: `acc` holds the (reversed) characters of
the token currently being read. -/
def splitWsAux : List Char → List Char → List String
  | [], acc => if acc.isEmpty then [] else [String.mk acc.reverse]
  | c :: cs, acc =>
    if isAsciiWs c then
      if acc.isEmpty then splitWsAux cs []
      else String.mk acc.reverse :: splitWsAux cs []
    else splitWsAux cs (c :: acc)

/-- Rust `str::split_ascii_whitespace`, collected into a list: maximal runs
of non-whitespace characters, never producing empty tokens. -/
def splitWhitespace (s : String) : List String :=
  splitWsAux s.data []

/-- Holds when the second character list is an initial segment of the first. -/
def listStartsWith : List Char → List Char → Bool
  | _, [] => true
  | [], _ :: _ => false
  | c :: cs, d :: ds => c = d && listStartsWith cs ds

/-- Rust `str::starts_with` on string literals. -/
def strStartsWith (s p : String) : Bool :=
  listStartsWith s.data p.data

/-- Numeric value of a digit string (most significant first). -/
def digitsVal (cs : List Char) : ℕ :=
  cs.foldl (fun a c => 10 * a + (c.toNat - 48)) 0

/-- Unsigned part of Rust `f64::from_str`, restricted to plain decimal
literals `Digits ['.' [Digits]] | '.' Digits`, returned as an exact
(mantissa, denominator) pair with the denominator a power of ten.
Exponents, `inf` and `NaN` are omitted: no input appearing in the claims
or in the proofs below uses them, and every theorem that quantifies over
inputs uses this same function on both sides. -/
def parseUnsigned (cs : List Char) : Option (ℕ × ℕ) :=
  let intPart := cs.takeWhile Char.isDigit
  let rest := cs.dropWhile Char.isDigit
  match rest with
  | [] => if intPart.isEmpty then none else some (digitsVal intPart, 1)
  | '.' :: frac =>
    if frac.all Char.isDigit && !(intPart.isEmpty && frac.isEmpty) then
      some (digitsVal intPart * 10 ^ frac.length + digitsVal frac, 10 ^ frac.length)
    else none
  | _ => none

/-- Rust `str::parse::<f64>()` on the decimal fragment, with optional
sign, as an exact rational.  Built with `Rat.divInt` (rather than `ℚ`
field operations) so that it evaluates inside the kernel. -/
def parseNum (s : String) : Option ℚ :=
  match s.data with
  | '-' :: rest => (parseUnsigned rest).map (fun p => Rat.divInt (-(p.1 : ℤ)) (p.2 : ℤ))
  | '+' :: rest => (parseUnsigned rest).map (fun p => Rat.divInt (p.1 : ℤ) (p.2 : ℤ))
  | cs => (parseUnsigned cs).map (fun p => Rat.divInt (p.1 : ℤ) (p.2 : ℤ))

/-- Model of Rust `char::is_numeric` on the ASCII fragment exercised by
this program (decimal digits). -/
def isNumericChar (c : Char) : Bool := c.isDigit

/-! ## Data model (`src/project.rs`) -/

/-- Rust `enum ProjectType { Semp, Pbqff }`. -/
inductive ProjectType where
  | Semp
  | Pbqff
deriving DecidableEq, Repr

/-- Rust `struct DataSet { name: String, data: Vec<[f64; 2]> }`. -/
structure DataSet where
  name : String
  data : List (ℚ × ℚ)
deriving DecidableEq, Repr

/-- Rust `struct Project` (`src/project.rs` lines 35–59).  `last_updated` is an
`Instant` in nanoseconds, `update_interval` is in seconds,
`last_modified` is an opaque wall-clock stamp. -/
structure Project where
  name : String
  host : String
  path : String
  typ : ProjectType
  last_updated : ℕ
  update_interval : ℕ
  data : List DataSet
  last_modified : ℤ
deriving DecidableEq, Repr

instance : Inhabited Project :=
  ⟨⟨"", "", "", ProjectType.Semp, 0, 0, [], 0⟩⟩

/-- Rust `struct Fetch { last_modified: DateTime<Local>, data: Vec<DataSet> }`. -/
structure Fetch where
  last_modified : ℤ
  data : List DataSet
deriving DecidableEq, Repr

/-! ## Parsers (`src/project.rs` lines 67–136) -/

/-- One line of `parse_freqs`: `sp[0]` and `sp.last().unwrap()`, both
parsed as `f64`; an empty or malformed line panics (`none`). -/
def freqsRun : List String → Option (List (ℚ × ℚ))
  | [] => some []
  | l :: ls =>
    let sp := splitWhitespace l
    match sp.head?, sp.getLast? with
    | some a, some b =>
      match parseNum a, parseNum b with
      | some x, some y => (freqsRun ls).map (fun ps => (x, y) :: ps)
      | _, _ => none
    | _, _ => none

/-- Model of `parse_freqs` (`src/project.rs` lines 67–80): each line contributes
`[sp[0], sp.last()]` to the single "MAE" series. -/
def parse_freqs (contents : List String) : Option DataSet :=
  (freqsRun contents).map (fun ps => ⟨"MAE", ps⟩)

/-- The qualifying-line test of `parse_semp` and `Fetch::parse`:
`sp.next().is_some_and(|s| s.chars().all(|c| c.is_numeric()))`. -/
def qualifiesLine (l : String) : Bool :=
  match splitWhitespace l with
  | [] => false
  | t :: _ => t.data.all isNumericChar

/-- The three y-values read from a qualifying line of `parse_semp` after
the consumed check token: `sp.next().unwrap().parse().unwrap()` (token at
remaining position 0), then `sp.nth(1).unwrap().parse().unwrap()` twice
(remaining positions 2 and 4).  Any failed `unwrap` or parse panics
(`none`). -/
def sempVals (rest : List String) : Option (ℚ × ℚ × ℚ) :=
  (rest.get? 0).bind fun s1 => (parseNum s1).bind fun n =>
  (rest.get? 2).bind fun s3 => (parseNum s3).bind fun r =>
  (rest.get? 4).bind fun s5 => (parseNum s5).map fun m => (n, r, m)

/-- Loop of `parse_semp` (`src/project.rs` lines 97–108).  `i` is the
zero-based qualifying-line counter; the accumulators are the `data`
vectors of the Norm, RMSD and MAX series. -/
def sempRun :
    List String → ℕ → List (ℚ × ℚ) × List (ℚ × ℚ) × List (ℚ × ℚ) →
    Option (List (ℚ × ℚ) × List (ℚ × ℚ) × List (ℚ × ℚ))
  | [], _, acc => some acc
  | l :: ls, i, (an, ar, am) =>
    match splitWhitespace l with
    | [] => sempRun ls i (an, ar, am)
    | t :: rest =>
      if t.data.all isNumericChar then
        match sempVals rest with
        | some (n, r, m) =>
          sempRun ls (i + 1)
            (an ++ [((i : ℚ), n)], ar ++ [((i : ℚ), r)], am ++ [((i : ℚ), m)])
        | none => none
      else sempRun ls i (an, ar, am)

/-- Model of `parse_semp` (`src/project.rs` lines 83–110). -/
def parse_semp (contents : List String) : Option (List DataSet) :=
  (sempRun contents 0 ([], [], [])).map
    (fun acc => [⟨"Norm", acc.1⟩, ⟨"RMSD", acc.2.1⟩, ⟨"MAX", acc.2.2⟩])

/-- Rust `line.starts_with("finished dropping")`. -/
def isDropLine (l : String) : Bool :=
  strStartsWith l "finished dropping"

/-- Rust `line.starts_with("[iter ")`. -/
def isIterLine (l : String) : Bool :=
  strStartsWith l "[iter "

/-- The point extracted from an `[iter ` line of `parse_pbqff`:
`sp[1]` and `sp[7]`, both parsed as `f64`; an out-of-bounds index or
failed parse panics (`none`). -/
def iterPoint (l : String) : Option (ℚ × ℚ) :=
  let sp := splitWhitespace l
  match sp.get? 1, sp.get? 7 with
  | some s1, some s7 =>
    match parseNum s1, parseNum s7 with
    | some i, some r => some (i, r)
    | _, _ => none
  | _, _ => none

/-- One loop iteration of `parse_pbqff` (`src/project.rs` lines 118–134)
on state `(data, did_drop)`. -/
def pbqffStep (st : List (ℚ × ℚ) × Bool) (l : String) :
    Option (List (ℚ × ℚ) × Bool) :=
  let dd := if isDropLine l then true else st.2
  if isIterLine l then
    match iterPoint l with
    | none => none
    | some p => if dd then some ([p], false) else some (st.1 ++ [p], dd)
  else some (st.1, dd)

/-- The loop of `parse_pbqff` over all lines. -/
def pbqffRun : List String → List (ℚ × ℚ) × Bool → Option (List (ℚ × ℚ) × Bool)
  | [], st => some st
  | l :: ls, st => (pbqffStep st l).bind (pbqffRun ls)

/-- Model of `parse_pbqff` (`src/project.rs` lines 112–136): single
"Points remaining" series with phase reset on `finished dropping`. -/
def parse_pbqff (contents : List String) : Option (List DataSet) :=
  (pbqffRun contents ([], false)).map (fun st => [⟨"Points remaining", st.1⟩])

/-- The iter-points of a list of lines: every line beginning with the
iteration marker contributes its point; a malformed one panics. Used to
state which points `parse_pbqff` keeps. -/
def iterPointsList : List String → Option (List (ℚ × ℚ))
  | [] => some []
  | l :: ls =>
    if isIterLine l then
      (iterPoint l).bind (fun p => (iterPointsList ls).map (fun ps => p :: ps))
    else iterPointsList ls

/-! ## The single-series parser of `src/main.rs` -/

/-- Loop of `Fetch::parse` (`src/main.rs` lines 53–65): same qualifying
test as `parse_semp`, one output sequence, y taken from the token right
after the check token (`sp.next().unwrap().parse().unwrap()`). -/
def mainRun : List String → ℕ → List (ℚ × ℚ) → Option (List (ℚ × ℚ))
  | [], _, acc => some acc
  | l :: ls, i, acc =>
    match splitWhitespace l with
    | [] => mainRun ls i acc
    | t :: rest =>
      if t.data.all isNumericChar then
        match (rest.get? 0).bind parseNum with
        | some v => mainRun ls (i + 1) (acc ++ [((i : ℚ), v)])
        | none => none
      else mainRun ls i acc

/-- Model of `Fetch::parse` of `src/main.rs`. -/
def mainFetchParse (contents : List String) : Option (List (ℚ × ℚ)) :=
  mainRun contents 0 []

/-! ## Claim-side and specification-side parser descriptions -/

/-- The y-values predicted by claim C6's wording: the tokens at
positions 2, 4 and 6 counting from 0 *after* the check token. -/
def sempClaimVals (rest : List String) : Option (ℚ × ℚ × ℚ) :=
  (rest.get? 2).bind fun s2 => (parseNum s2).bind fun n =>
  (rest.get? 4).bind fun s4 => (parseNum s4).bind fun r =>
  (rest.get? 6).bind fun s6 => (parseNum s6).map fun m => (n, r, m)

/-- The literal reading of claim C6: same loop as `parse_semp` but with
the y-values taken from the tokens at positions 2, 4 and 6 counting from
0 *after* the check token.  Stated only to be compared against
`parse_semp`; the source takes remaining positions 0, 2 and 4. -/
def sempClaimRun :
    List String → ℕ → List (ℚ × ℚ) × List (ℚ × ℚ) × List (ℚ × ℚ) →
    Option (List (ℚ × ℚ) × List (ℚ × ℚ) × List (ℚ × ℚ))
  | [], _, acc => some acc
  | l :: ls, i, (an, ar, am) =>
    match splitWhitespace l with
    | [] => sempClaimRun ls i (an, ar, am)
    | t :: rest =>
      if t.data.all isNumericChar then
        match sempClaimVals rest with
        | some (n, r, m) =>
          sempClaimRun ls (i + 1)
            (an ++ [((i : ℚ), n)], ar ++ [((i : ℚ), r)], am ++ [((i : ℚ), m)])
        | none => none
      else sempClaimRun ls i (an, ar, am)

/-- The three series predicted by claim C6's wording. -/
def parse_semp_claim (contents : List String) : Option (List DataSet) :=
  (sempClaimRun contents 0 ([], [], [])).map
    (fun acc => [⟨"Norm", acc.1⟩, ⟨"RMSD", acc.2.1⟩, ⟨"MAX", acc.2.2⟩])

/-- The qualifying lines of an input, each paired with the zero-based
qualifying-line counter and the tokens remaining after the check token.
Specification-side description used to characterise `parse_semp`. -/
def qualEnumFrom (i : ℕ) : List String → List (ℕ × List String)
  | [] => []
  | l :: ls =>
    match splitWhitespace l with
    | [] => qualEnumFrom i ls
    | t :: rest =>
      if t.data.all isNumericChar then (i, rest) :: qualEnumFrom (i + 1) ls
      else qualEnumFrom i ls

/-- The parsed value of the token at remaining position `k` (defaulting
where the token is absent or malformed; under a successful parse the
default never fires). -/
def valAt (toks : List String) (k : ℕ) : ℚ :=
  (parseNum (toks.getD k "")).getD 0

/-! ## Runtime outcomes, fetch environment, fetch and update -/

/-- Outcome of running a fallible Rust function: a returned value, a
returned `anyhow::Error` (propagated by `?`), or a panic (a failed
`unwrap` or an out-of-bounds index, which unwinds the thread). -/
inductive RunResult (α : Type) where
  | ok (a : α)
  | err
  | panicked
deriving DecidableEq

/-- Whether a `RunResult` is a returned value. -/
def RunResult.isOk {α : Type} : RunResult α → Bool
  | .ok _ => true
  | _ => false

/-- The local temp file produced by one remote copy: its filesystem
modification time and its text content (as lines). -/
structure FileData where
  modified : ℤ
  contents : List String
deriving DecidableEq

/-- Environment of one `Project::fetch` call: the outcome of each
`Command::status()` call (`none` = the subprocess could not be launched,
an `io::Error` propagated by `?`; `some c` = it ran and exited with
status `c`, which the source never inspects) and the outcome of
opening/reading each local temp file (`none` = `io::Error`). -/
structure FetchEnv where
  scpMain : Option ℕ
  fileMain : Option FileData
  scpFreqs : Option ℕ
  fileFreqs : Option FileData
deriving DecidableEq

/-- Rust `format!("{host}:{path}")` (`src/project.rs` line 191). -/
def Project.remoteAddr (p : Project) : String :=
  p.host ++ ":" ++ p.path

/-- The remote-copy command line built at `src/project.rs` lines 196–200:
`scp -p -C <src> <dst>`. -/
def scpCmd (src dst : String) : String × List String :=
  ("scp", ["-p", "-C", src, dst])

/-- The primary remote-copy invocation of `Project::fetch` (destination
is the file `path.dat` inside the temp directory). -/
def Project.scpInvocation (p : Project) : String × List String :=
  scpCmd p.remoteAddr "path.dat"

/-- Model of `Project::fetch` (`src/project.rs` lines 187–241).  The `?` after
`cmd.status()` propagates only a launch failure; an exit status, failing
or not, is ignored and the local temp file is read regardless.  For
`Semp` targets a second copy retrieves the sibling `freqs.log`. -/
def Project.fetch (p : Project) (env : FetchEnv) : RunResult Fetch :=
  match env.scpMain with
  | none => .err
  | some _code =>
    match env.fileMain with
    | none => .err
    | some fd =>
      match p.typ with
      | .Semp =>
        match parse_semp fd.contents with
        | none => .panicked
        | some data =>
          match env.scpFreqs with
          | none => .err
          | some _ =>
            match env.fileFreqs with
            | none => .err
            | some fd2 =>
              match parse_freqs fd2.contents with
              | none => .panicked
              | some mae => .ok ⟨fd.modified, data ++ [mae]⟩
      | .Pbqff =>
        match parse_pbqff fd.contents with
        | none => .panicked
        | some data => .ok ⟨fd.modified, data⟩

/-- Model of `Project::update` (`src/project.rs` lines 248–260): on a successful
fetch replace `data`, stamp `last_updated` with the current instant and
install the new `last_modified`; on a fetch error the `?` returns before
any field is assigned.  The pair holds the project after the call and
the call's outcome. -/
def Project.update (p : Project) (env : FetchEnv) (now : ℕ) :
    Project × RunResult Unit :=
  match Project.fetch p env with
  | .ok f =>
    ({ p with data := f.data, last_updated := now, last_modified := f.last_modified },
      .ok ())
  | .err => (p, .err)
  | .panicked => (p, .panicked)

/-- Divisor used by `Duration::as_secs`: nanoseconds per second. -/
def nanosPerSec : ℕ := 1000000000

/-- Model of `Project::needs_update` (`src/project.rs` lines 243–246):
`now.duration_since(last_updated).as_secs() > update_interval`. -/
def Project.needs_update (p : Project) (now : ℕ) : Bool :=
  (now - p.last_updated) / nanosPerSec > p.update_interval

/-! ## Worker and coordinator (`src/gui.rs`) -/

/-- One worker iteration (`src/gui.rs` lines 40–43): run
`project.update(temp).unwrap()` on the snapshot and send the result
back.  An update error fails the `unwrap`, i.e. panics. -/
def workerProcess (req : ℕ × Project) (env : FetchEnv) (now : ℕ) :
    RunResult (ℕ × Project) :=
  match Project.update req.2 env now with
  | (p, .ok _) => .ok (req.1, p)
  | (_, .err) => .panicked
  | (_, .panicked) => .panicked

/-- The worker loop over the queued requests, each paired with its fetch
environment and completion instant: results are produced in order until
the first panic, which terminates the thread; nothing after it is
processed.  The boolean records whether the thread is still alive. -/
def workerRun :
    List ((ℕ × Project) × FetchEnv × ℕ) → List (ℕ × Project) × Bool
  | [] => ([], true)
  | (req, env, now) :: rest =>
    match workerProcess req env now with
    | .ok r =>
      let rs := workerRun rest
      (r :: rs.1, rs.2)
    | _ => ([], false)

/-- Coordinator state: the target registry, the removal indices deferred
to the end of the tick, and the requests sent so far on the request
channel (index plus the snapshot cloned at enqueue time). -/
structure AppState where
  projects : List Project
  toDelete : List ℕ
  reqChan : List (ℕ × Project)
deriving DecidableEq

/-- Model of `MyApp::request_update` (`src/gui.rs` lines 61–69): stamp
`last_updated` with the current instant first (so the same target is not
re-queued while in flight), then send a clone of the project. -/
def MyApp.request_update (st : AppState) (i now : ℕ) : AppState :=
  let p := { st.projects.getD i default with last_updated := now }
  { st with
    projects := st.projects.set i p
    reqChan := st.reqChan ++ [(i, p)] }

/-- One index of the staleness scan (`src/gui.rs` lines 155–158). -/
def scanStep (now : ℕ) (s : AppState) (i : ℕ) : AppState :=
  if (s.projects.getD i default).needs_update now then
    MyApp.request_update s i now
  else s

/-- The per-tick staleness scan over the registry in index order. -/
def MyApp.scan (st : AppState) (now : ℕ) : AppState :=
  (List.range st.projects.length).foldl (scanStep now) st

/-- Model of `MyApp::request_removal` (`src/gui.rs` lines 118–120). -/
def MyApp.request_removal (st : AppState) (i : ℕ) : AppState :=
  { st with toDelete := st.toDelete ++ [i] }

/-- Rust `to_delete.sort_by(|a, b| b.cmp(a))`: sort into descending order. -/
def sortDesc (is : List ℕ) : List ℕ :=
  List.insertionSort (fun a b => b ≤ a) is

/-- Sequentially `Vec::remove` each index of `is` from `l`, returning the
remaining list together with the trace of removed elements in removal
order. -/
def removeList {α : Type} [Inhabited α] : List α → List ℕ → List α × List α
  | l, [] => (l, [])
  | l, i :: is =>
    let r := removeList (l.eraseIdx i) is
    (r.1, l.getD i default :: r.2)

/-- Model of `MyApp::do_removal` (`src/gui.rs` lines 122–129): sort the pending
indices into descending order and remove them from the registry. -/
def MyApp.do_removal (st : AppState) : AppState :=
  { st with
    projects := (removeList st.projects (sortDesc st.toDelete)).1
    toDelete := [] }

/-- Applying one drained `RefreshResult` (`src/gui.rs` line 227): the
received snapshot replaces the registry entry wholesale. -/
def drainOne (st : AppState) (r : ℕ × Project) : AppState :=
  { st with projects := st.projects.set r.1 r.2 }

/-- The non-blocking drain of all currently available results
(`src/gui.rs` lines 226–228). -/
def MyApp.drain (st : AppState) (results : List (ℕ × Project)) : AppState :=
  results.foldl drainOne st

/-- One tick of `MyApp::update` (`src/gui.rs` lines 133–230), restricted
to the registry-affecting steps in their source order: the staleness
scan (during which `removals` are the indices whose removal the user
requested), then the deferred removals, then the result drain. -/
def MyApp.tick (st : AppState) (now : ℕ) (removals : List ℕ)
    (results : List (ℕ × Project)) : AppState :=
  MyApp.drain
    (MyApp.do_removal (removals.foldl MyApp.request_removal (MyApp.scan st now)))
    results

/-! ## Concrete sample values used by witnesses and counterexamples -/

/-- A `Pbqff` target with last refresh at instant 0 and a 600 s interval. -/
def sampleProject : Project :=
  ⟨"prj", "host", "dir/qff.out", ProjectType.Pbqff, 0, 600, [], 0⟩

/-- Environment in which launching the primary `scp` fails (`status()`
returns an `io::Error`). -/
def envFailSpawn : FetchEnv :=
  ⟨none, none, none, none⟩

/-- Environment in which `scp` exits successfully and the temp file (mtime
7) is empty. -/
def envOkEmpty : FetchEnv :=
  ⟨some 0, some ⟨7, []⟩, some 0, some ⟨0, []⟩⟩

/-- Environment in which `scp` runs but exits with failing status 1,
while a (stale) temp file with mtime 7 is still present and readable. -/
def envExitFail : FetchEnv :=
  ⟨some 1, some ⟨7, []⟩, some 0, some ⟨0, []⟩⟩

/-- A one-target registry holding `sampleProject`. -/
def sampleState : AppState :=
  ⟨[sampleProject], [], []⟩

/-- The project `sampleProject` as completed by the worker at instant 9 against
`envOkEmpty`. -/
def sampleDone : Project :=
  { sampleProject with
    data := [⟨"Points remaining", []⟩], last_updated := 9, last_modified := 7 }

/-- A second sample target (`Semp`, 600 s interval). -/
def sampleProject2 : Project :=
  ⟨"p2", "h2", "d/semp.out", ProjectType.Semp, 0, 600, [], 0⟩

/-- A third sample target (`Pbqff`, 900 s interval). -/
def sampleProject3 : Project :=
  ⟨"p3", "h3", "d/qff.out", ProjectType.Pbqff, 0, 900, [], 0⟩

/-- A three-target registry. -/
def sampleState3 : AppState :=
  ⟨[sampleProject, sampleProject2, sampleProject3], [], []⟩

/-! ## General list helpers -/

/-- Reading a just-written index after `List.set`. -/
theorem getD_set_eq {α : Type} (a d : α) :
    ∀ (l : List α) (i : ℕ), i < l.length → (l.set i a).getD i d = a
  | [], _, h => absurd h (Nat.not_lt_zero _)
  | _ :: _, 0, _ => rfl
  | _ :: l, i + 1, h => getD_set_eq a d l i (Nat.lt_of_succ_lt_succ h)

/-- Reading any other index after `List.set` is unchanged. -/
theorem getD_set_ne {α : Type} (a d : α) :
    ∀ (l : List α) (i j : ℕ), j ≠ i → (l.set i a).getD j d = l.getD j d
  | [], _, _, _ => rfl
  | _ :: _, 0, 0, h => absurd rfl h
  | _ :: _, 0, _ + 1, _ => rfl
  | _ :: _, _ + 1, 0, _ => rfl
  | _ :: l, i + 1, j + 1, h =>
    getD_set_ne a d l i j (fun e => h (congrArg Nat.succ e))

/-! ## Claim C4 -/

/-- C4: if the fetch does not return a `Fetch` (it returns an error, or
panics), `Project::update` leaves every field of the project exactly as
it was and surfaces the same outcome: no series, no `last_modified`, no
`last_updated` write happens on the failure path. -/
theorem update_error_no_mutation (p : Project) (env : FetchEnv) (now : ℕ)
    (h : (Project.fetch p env).isOk = false) :
    (Project.update p env now).1 = p ∧
    (Project.update p env now).2.isOk = false := by
  unfold Project.update
  cases hf : Project.fetch p env with
  | ok f => rw [hf] at h; simp [RunResult.isOk] at h
  | err => simp [RunResult.isOk]
  | panicked => simp [RunResult.isOk]

/-- C4 witness: a failing spawn leaves the sample target untouched. -/
theorem update_error_no_mutation_witness :
    (Project.fetch sampleProject envFailSpawn).isOk = false ∧
    (Project.update sampleProject envFailSpawn 5).1 = sampleProject ∧
    (Project.update sampleProject envFailSpawn 5).2.isOk = false :=
  ⟨by decide,
    (update_error_no_mutation sampleProject envFailSpawn 5 (by decide)).1,
    (update_error_no_mutation sampleProject envFailSpawn 5 (by decide)).2⟩

/-! ## Claim C5 -/

/-- C5 counterexample: the subprocess exits with failing status 1, yet
`Project::fetch` does not surface an error — it reads the (stale) local
temp file as if the copy had succeeded, because the `?` after
`cmd.status()` propagates only launch failures and the exit status is
never inspected. -/
theorem fetch_ignores_exit_status_cex :
    (1 : ℕ) ≠ 0 ∧
    Project.fetch sampleProject envExitFail =
      .ok ⟨7, [⟨"Points remaining", []⟩]⟩ := by
  exact ⟨by decide, by decide⟩

/-- C5 amended: the fetch invokes the remote-copy tool as
`scp -p -C host:path <temp>/path.dat`, and a *launch* failure of the
subprocess is surfaced as a fetch error; the exit status of a launched
subprocess, however, is ignored — the fetch result is the same whatever
the exit code, and the local temp file is read regardless. -/
theorem fetch_scp_invocation_and_exit_status (p : Project) (env : FetchEnv)
    (c c' : ℕ) :
    Project.scpInvocation p =
      ("scp", ["-p", "-C", p.host ++ ":" ++ p.path, "path.dat"]) ∧
    Project.fetch p { env with scpMain := some c } =
      Project.fetch p { env with scpMain := some c' } ∧
    Project.fetch p { env with scpMain := none } = .err :=
  ⟨rfl, rfl, rfl⟩

/-! ## Claim C1 -/

/-- C1 counterexample: a request whose update fails (the spawn of `scp`
errors, so `update` returns `Err` and the worker's `unwrap` panics)
terminates the worker: the following request — which on its own would
succeed — is never processed and produces no result. -/
theorem worker_dies_on_failure_cex :
    workerRun
        [((0, sampleProject), envFailSpawn, 3),
         ((1, sampleProject), envOkEmpty, 4)] = ([], false) ∧
    workerRun [((1, sampleProject), envOkEmpty, 4)] =
      ([(1, { sampleProject with
                data := [⟨"Points remaining", []⟩],
                last_updated := 4, last_modified := 7 })], true) := by
  exact ⟨by decide, by decide⟩

/-- C1 amended: a fetch/parse failure while the worker processes one
request panics the worker thread (`update(temp).unwrap()`), so the
failing request produces no result and **no** subsequent request is
received or processed. -/
theorem worker_stops_after_failure (req : ℕ × Project) (env : FetchEnv)
    (now : ℕ) (rest : List ((ℕ × Project) × FetchEnv × ℕ))
    (h : (workerProcess req env now).isOk = false) :
    workerRun ((req, env, now) :: rest) = ([], false) := by
  unfold workerRun
  cases hw : workerProcess req env now with
  | ok r => rw [hw] at h; simp [RunResult.isOk] at h
  | err => simp
  | panicked => simp

/-- C1 witness: the failing sample request kills the worker even with
requests still queued. -/
theorem worker_stops_after_failure_witness :
    workerRun
        [((0, sampleProject), envFailSpawn, 3),
         ((1, sampleProject), envOkEmpty, 4)] = ([], false) :=
  worker_stops_after_failure (0, sampleProject) envFailSpawn 3
    [((1, sampleProject), envOkEmpty, 4)] (by decide)

/-! ## Claim C3 -/

/-- C3 counterexample: the last-refreshed stamp is written at enqueue
time (5), but the snapshot the worker completes at instant 9 carries
`last_updated = 9` (written inside `Project::update`), and the drain
installs that snapshot wholesale — so the registry's timestamp *is*
written again when the result is applied, and differs from the enqueue
value. -/
theorem enqueue_stamp_overwritten_cex :
    ((MyApp.request_update sampleState 0 5).projects.getD 0 default).last_updated = 5 ∧
    workerProcess
        (0, (MyApp.request_update sampleState 0 5).projects.getD 0 default)
        envOkEmpty 9 = .ok (0, sampleDone) ∧
    ((MyApp.drain (MyApp.request_update sampleState 0 5)
        [(0, sampleDone)]).projects.getD 0 default).last_updated = 9 ∧
    (9 : ℕ) ≠ 5 := by
  exact ⟨by decide, by decide, by decide, by decide⟩

/-- C3 amended: per enqueued refresh request the last-refreshed stamp is
written twice, not once — at enqueue time on the registry entry (which
is what suppresses duplicate in-flight requests), and again at
completion: `Project::update` stamps the worker's snapshot with the
completion instant and the drain replaces the registry entry with that
snapshot. -/
theorem last_updated_enqueue_and_completion (st : AppState)
    (i now now' : ℕ) (env : FetchEnv) (p' : Project)
    (hi : i < st.projects.length)
    (hw : workerProcess
        (i, (MyApp.request_update st i now).projects.getD i default)
        env now' = .ok (i, p')) :
    ((MyApp.request_update st i now).projects.getD i default).last_updated = now ∧
    p'.last_updated = now' ∧
    ((MyApp.drain (MyApp.request_update st i now)
        [(i, p')]).projects.getD i default).last_updated = now' := by
  have hq : (MyApp.request_update st i now).projects.getD i default =
      { st.projects.getD i default with last_updated := now } := by
    unfold MyApp.request_update
    exact getD_set_eq _ _ _ _ hi
  refine ⟨by rw [hq], ?_, ?_⟩
  · unfold workerProcess Project.update at hw
    cases hf : Project.fetch ((MyApp.request_update st i now).projects.getD i default) env with
    | ok f =>
      rw [hf] at hw
      simp only [RunResult.ok.injEq, Prod.mk.injEq] at hw
      rw [← hw.2]
    | err => rw [hf] at hw; simp at hw
    | panicked => rw [hf] at hw; simp at hw
  · unfold MyApp.drain
    simp only [List.foldl, drainOne]
    have hlen : ((MyApp.request_update st i now).projects).length = st.projects.length := by
      unfold MyApp.request_update
      simp
    rw [getD_set_eq]
    · unfold workerProcess Project.update at hw
      cases hf : Project.fetch ((MyApp.request_update st i now).projects.getD i default) env with
      | ok f =>
        rw [hf] at hw
        simp only [RunResult.ok.injEq, Prod.mk.injEq] at hw
        rw [← hw.2]
      | err => rw [hf] at hw; simp at hw
      | panicked => rw [hf] at hw; simp at hw
    · rw [hlen]; exact hi

/-- C3 witness: the amended double-write at concrete instants 5 and 9. -/
theorem last_updated_enqueue_and_completion_witness :
    ((MyApp.request_update sampleState 0 5).projects.getD 0 default).last_updated = 5 ∧
    sampleDone.last_updated = 9 ∧
    ((MyApp.drain (MyApp.request_update sampleState 0 5)
        [(0, sampleDone)]).projects.getD 0 default).last_updated = 9 :=
  last_updated_enqueue_and_completion sampleState 0 5 9 envOkEmpty sampleDone
    (by decide) (by decide)

/-! ## Claim C8 -/

/-- The enqueue operation leaves every other registry entry unchanged. -/
theorem request_update_getD_ne (st : AppState) (i now j : ℕ) (h : j ≠ i) :
    (MyApp.request_update st i now).projects.getD j default =
      st.projects.getD j default := by
  unfold MyApp.request_update
  exact getD_set_ne _ _ _ _ _ h

/-- Characterisation of the scan fold over any duplicate-free index list:
the requests appended are exactly those of the stale indices, in order,
each carrying the snapshot stamped with the scan instant. -/
theorem scan_foldl_reqChan (now : ℕ) :
    ∀ (is : List ℕ) (st : AppState), is.Nodup →
      (is.foldl (scanStep now) st).reqChan =
        st.reqChan ++ is.filterMap (fun i =>
          if (st.projects.getD i default).needs_update now then
            some (i, { st.projects.getD i default with last_updated := now })
          else none)
  | [], st, _ => by simp
  | i :: is, st, h => by
    have hnd := List.nodup_cons.mp h
    have hproj : ∀ j, j ≠ i →
        (scanStep now st i).projects.getD j default =
          st.projects.getD j default := by
      intro j hji
      unfold scanStep
      cases hb : (st.projects.getD i default).needs_update now
      · rfl
      · simpa using request_update_getD_ne st i now j hji
    have hfm : is.filterMap (fun j =>
          if ((scanStep now st i).projects.getD j default).needs_update now then
            some (j, { (scanStep now st i).projects.getD j default with
                        last_updated := now })
          else none) =
        is.filterMap (fun j =>
          if (st.projects.getD j default).needs_update now then
            some (j, { st.projects.getD j default with last_updated := now })
          else none) :=
      List.filterMap_congr (fun j hj => by
        rw [hproj j (fun e => hnd.1 (e ▸ hj))])
    rw [List.foldl_cons, scan_foldl_reqChan now is (scanStep now st i) hnd.2,
      hfm, List.filterMap_cons]
    cases hb : (st.projects.getD i default).needs_update now
    · have hstep : scanStep now st i = st := by
        unfold scanStep
        rw [hb]
        rfl
      rw [hstep]
      rfl
    · have hchan : (scanStep now st i).reqChan =
          st.reqChan ++
            [(i, { st.projects.getD i default with last_updated := now })] := by
        unfold scanStep
        rw [hb]
        rfl
      rw [hchan, List.append_assoc]
      rfl

/-- C8 counterexample: with a 600 s interval and last refresh at instant
0, at instant `600 s + 1 ns` the elapsed time strictly exceeds the
configured interval, yet `needs_update` is still `false`, because
`as_secs()` truncates the elapsed 600.000000001 s to 600 whole seconds
and `600 > 600` fails. -/
theorem needs_update_truncation_cex :
    sampleProject.update_interval = 600 ∧
    sampleProject.last_updated = 0 ∧
    600 * nanosPerSec + 1 - sampleProject.last_updated >
      sampleProject.update_interval * nanosPerSec ∧
    sampleProject.needs_update (600 * nanosPerSec + 1) = false := by
  exact ⟨by decide, by decide, by decide, by decide⟩

/-- C8 amended: a target is stale exactly when at least `interval + 1`
whole seconds have elapsed since its last-refreshed instant — i.e. when
the elapsed time *truncated to whole seconds* strictly exceeds the
configured interval (not when the raw elapsed time does); and on each
tick the staleness scan walks the registry in index order and enqueues a
refresh request for exactly the stale targets, in that order. -/
theorem needs_update_iff_and_scan (p : Project) (now : ℕ) (st : AppState) :
    (p.needs_update now = true ↔
      (p.update_interval + 1) * nanosPerSec ≤ now - p.last_updated) ∧
    (MyApp.scan st now).reqChan =
      st.reqChan ++ (List.range st.projects.length).filterMap (fun i =>
        if (st.projects.getD i default).needs_update now then
          some (i, { st.projects.getD i default with last_updated := now })
        else none) := by
  constructor
  · unfold Project.needs_update
    rw [decide_eq_true_iff]
    exact Iff.trans (Iff.symm Nat.succ_le) (Nat.le_div_iff_mul_le (by decide))
  · exact scan_foldl_reqChan now _ st (List.nodup_range _)

/-! ## Claim C9 -/

/-- Erasing at an index leaves all smaller positions untouched. -/
theorem getD_eraseIdx_lt {α : Type} (d : α) :
    ∀ (l : List α) (i j : ℕ), j < i → (l.eraseIdx i).getD j d = l.getD j d
  | [], _, _, _ => rfl
  | _ :: _, 0, j, h => absurd h (Nat.not_lt_zero j)
  | _ :: _, _ + 1, 0, _ => rfl
  | _ :: l, i + 1, j + 1, h => getD_eraseIdx_lt d l i j (Nat.lt_of_succ_lt_succ h)

/-- Removing a descending-sorted, duplicate-free batch of valid indices
removes exactly the element originally at each index: no earlier removal
shifts or skips a later one. -/
theorem removeList_trace {α : Type} [Inhabited α] :
    ∀ (is : List ℕ) (l : List α),
      List.Sorted (fun a b => b ≤ a) is → is.Nodup →
      (∀ i ∈ is, i < l.length) →
      (removeList l is).2 = is.map (fun i => l.getD i default)
  | [], _, _, _, _ => rfl
  | i :: is, l, hs, hnd, hv => by
    have hcons := List.sorted_cons.mp hs
    have hndc := List.nodup_cons.mp hnd
    have hi : i < l.length := hv i (List.mem_cons_self i is)
    have hlt : ∀ j ∈ is, j < i := by
      intro j hj
      exact Nat.lt_of_le_of_ne (hcons.1 j hj)
        (fun e => hndc.1 (e ▸ hj))
    have hv' : ∀ j ∈ is, j < (l.eraseIdx i).length := by
      intro j hj
      rw [List.length_eraseIdx, if_pos hi]
      exact Nat.lt_of_lt_of_le (hlt j hj)
        (Nat.le_sub_one_of_lt hi)
    have ih := removeList_trace is (l.eraseIdx i) hcons.2 hndc.2 hv'
    show (removeList l (i :: is)).2 = _
    unfold removeList
    simp only [List.map_cons]
    rw [ih]
    refine congrArg (l.getD i default :: ·) ?_
    exact List.map_congr_left (fun j hj => getD_eraseIdx_lt default l i j (hlt j hj))

/-- The scan step never touches `toDelete` and preserves registry length. -/
theorem scanStep_toDelete_length (now : ℕ) (s : AppState) (i : ℕ) :
    (scanStep now s i).toDelete = s.toDelete ∧
    (scanStep now s i).projects.length = s.projects.length := by
  unfold scanStep MyApp.request_update
  cases hb : (s.projects.getD i default).needs_update now
  · exact ⟨rfl, rfl⟩
  · simp

/-- The whole scan never touches `toDelete` and preserves length. -/
theorem scan_foldl_toDelete_length (now : ℕ) :
    ∀ (is : List ℕ) (st : AppState),
      (is.foldl (scanStep now) st).toDelete = st.toDelete ∧
      (is.foldl (scanStep now) st).projects.length = st.projects.length
  | [], st => ⟨rfl, rfl⟩
  | i :: is, st => by
    have h1 := scanStep_toDelete_length now st i
    have h2 := scan_foldl_toDelete_length now is (scanStep now st i)
    exact ⟨h2.1.trans h1.1, h2.2.trans h1.2⟩

/-- Requesting removals appends the indices to `toDelete` and changes
nothing else. -/
theorem foldl_request_removal :
    ∀ (rs : List ℕ) (s : AppState),
      rs.foldl MyApp.request_removal s =
        { s with toDelete := s.toDelete ++ rs }
  | [], s => by simp
  | r :: rs, s => by
    rw [List.foldl_cons, foldl_request_removal rs]
    unfold MyApp.request_removal
    simp

/-- C9: removals requested during a tick are deferred: the tick's final
registry is the *post-scan* registry with the batch removed by
`do_removal` (sorted into descending order, applied after the scan), and
the removal trace deletes exactly the element that sat at each requested
index in the post-scan registry — no removal in a distinct batch shifts
or skips another. -/
theorem tick_removals_deferred_and_exact (st : AppState) (now : ℕ)
    (removals : List ℕ) (hde : st.toDelete = []) (hnd : removals.Nodup)
    (hvalid : ∀ i ∈ removals, i < st.projects.length) :
    (MyApp.tick st now removals []).projects =
      (removeList (MyApp.scan st now).projects (sortDesc removals)).1 ∧
    (removeList (MyApp.scan st now).projects (sortDesc removals)).2 =
      (sortDesc removals).map
        (fun i => (MyApp.scan st now).projects.getD i default) := by
  have hscan := scan_foldl_toDelete_length now (List.range st.projects.length) st
  have htd : (MyApp.scan st now).toDelete = [] := by
    rw [MyApp.scan] at *
    rw [hscan.1, hde]
  constructor
  · show (MyApp.drain _ []).projects = _
    unfold MyApp.drain
    rw [List.foldl_nil]
    rw [foldl_request_removal removals (MyApp.scan st now)]
    unfold MyApp.do_removal
    rw [htd]
    rfl
  · refine removeList_trace (sortDesc removals) (MyApp.scan st now).projects
      (List.sorted_insertionSort _ _) ?_ ?_
    · exact (List.perm_insertionSort _ _).nodup_iff.mpr hnd
    · intro i hi
      have hmem : i ∈ removals := by
        have := List.mem_insertionSort (fun a b => b ≤ a) (l := removals) (x := i)
        exact this.mp hi
      have hlen : (MyApp.scan st now).projects.length = st.projects.length := by
        rw [MyApp.scan] at *
        exact hscan.2
      rw [hlen]
      exact hvalid i hmem

/-- C9 witness: removing the batch `{0, 2}` from a three-target registry
deletes exactly the original elements at indices 2 and 0, in descending
order. -/
theorem tick_removals_witness :
    (MyApp.tick sampleState3 0 [0, 2] []).projects =
      (removeList (MyApp.scan sampleState3 0).projects (sortDesc [0, 2])).1 ∧
    (removeList (MyApp.scan sampleState3 0).projects (sortDesc [0, 2])).2 =
      (sortDesc [0, 2]).map
        (fun i => (MyApp.scan sampleState3 0).projects.getD i default) :=
  tick_removals_deferred_and_exact sampleState3 0 [0, 2] (by decide) (by decide)
    (by decide)


/-! ## Claims C6, C7 and C10: the semp parsers -/

/-- Relation between `get?` and `getD`: a present entry is the default-read value. -/
theorem getD_of_get? {α : Type} (l : List α) (n : ℕ) (a d : α)
    (h : l.get? n = some a) : l.getD n d = a := by
  unfold List.getD
  rw [h]
  rfl

/-- Inversion of a successful `sempVals` read: all three token reads and
parses succeeded, the values are the parses of the tokens at remaining
positions 0, 2 and 4, and the first value is exactly what `Fetch::parse`
of `src/main.rs` reads from the same line. -/
theorem sempVals_eq (rest : List String) (n r m : ℚ)
    (h : sempVals rest = some (n, r, m)) :
    valAt rest 0 = n ∧ valAt rest 2 = r ∧ valAt rest 4 = m ∧
    (rest.get? 0).bind parseNum = some n := by
  simp only [sempVals, Option.bind_eq_some, Option.map_eq_some'] at h
  obtain ⟨s1, h0, n', hn, s3, h2, r', hr, s5, h4, m', hm, heq⟩ := h
  rw [Prod.mk.injEq, Prod.mk.injEq] at heq
  obtain ⟨rfl, rfl, rfl⟩ := heq
  refine ⟨?_, ?_, ?_, ?_⟩
  · unfold valAt
    rw [getD_of_get? rest 0 s1 "" h0, hn]
    rfl
  · unfold valAt
    rw [getD_of_get? rest 2 s3 "" h2, hr]
    rfl
  · unfold valAt
    rw [getD_of_get? rest 4 s5 "" h4, hm]
    rfl
  · rw [h0, Option.some_bind]
    exact hn

/-- The semp loop ignores a non-qualifying line. -/
theorem sempRun_skip (l : String) (ls : List String) (i : ℕ)
    (an ar am : List (ℚ × ℚ)) (h : qualifiesLine l = false) :
    sempRun (l :: ls) i (an, ar, am) = sempRun ls i (an, ar, am) := by
  cases hsp : splitWhitespace l with
  | nil => simp only [sempRun, hsp]
  | cons t rest =>
    have ht : t.data.all isNumericChar = false := by
      simp only [qualifiesLine, hsp] at h
      exact h
    simp only [sempRun, hsp, ht]
    rfl

/-- Congruence: the semp loop inspects only the current line before
recursing, so pointwise-equal tails give equal runs. -/
theorem sempRun_cons_congr (p : String) (ls1 ls2 : List String)
    (h : ∀ (i : ℕ) (acc : List (ℚ × ℚ) × List (ℚ × ℚ) × List (ℚ × ℚ)),
      sempRun ls1 i acc = sempRun ls2 i acc)
    (i : ℕ) (acc : List (ℚ × ℚ) × List (ℚ × ℚ) × List (ℚ × ℚ)) :
    sempRun (p :: ls1) i acc = sempRun (p :: ls2) i acc := by
  obtain ⟨an, ar, am⟩ := acc
  cases hsp : splitWhitespace p with
  | nil =>
    simp only [sempRun, hsp]
    exact h i (an, ar, am)
  | cons t rest =>
    cases ht : t.data.all isNumericChar
    · simp only [sempRun, hsp, ht]
      exact h i (an, ar, am)
    · simp only [sempRun, hsp, ht]
      cases sempVals rest with
      | none => rfl
      | some v =>
        obtain ⟨n, r, m⟩ := v
        exact h _ _

/-- A non-qualifying line anywhere in the input contributes nothing and
does not advance the counter. -/
theorem sempRun_middle_skip (l : String) (h : qualifiesLine l = false) :
    ∀ (pre post : List String) (i : ℕ)
      (acc : List (ℚ × ℚ) × List (ℚ × ℚ) × List (ℚ × ℚ)),
      sempRun (pre ++ l :: post) i acc = sempRun (pre ++ post) i acc
  | [], post, i, acc => by
    obtain ⟨an, ar, am⟩ := acc
    exact sempRun_skip l post i an ar am h
  | p :: pre, post, i, acc =>
    sempRun_cons_congr p (pre ++ l :: post) (pre ++ post)
      (fun j a => sempRun_middle_skip l h pre post j a) i acc

/-- C7: on the first qualifying line `"3  1.5  foo  2.25  bar  0.75"`
the semp parser contributes `(0, 1.5)` to the Norm series, `(0, 2.25)`
to the RMSD series and `(0, 0.75)` to the MAX series; and on every
input, a line whose first token is not fully numeric contributes no
point to any series and does not advance the zero-based qualifying-line
counter (deleting it leaves the output unchanged). -/
theorem semp_first_line_and_skip :
    parse_semp ["3  1.5  foo  2.25  bar  0.75"] =
      some [⟨"Norm", [(0, Rat.divInt 3 2)]⟩, ⟨"RMSD", [(0, Rat.divInt 9 4)]⟩,
        ⟨"MAX", [(0, Rat.divInt 3 4)]⟩] ∧
    ∀ (pre post : List String) (l : String), qualifiesLine l = false →
      parse_semp (pre ++ l :: post) = parse_semp (pre ++ post) := by
  constructor
  · decide
  · intro pre post l h
    unfold parse_semp
    rw [sempRun_middle_skip l h pre post 0 ([], [], [])]

/-- C7 witness: the skip half applied to a concrete non-qualifying line. -/
theorem semp_first_line_and_skip_witness :
    qualifiesLine "iter    norm" = false ∧
    parse_semp ["iter    norm", "3  1.5  foo  2.25  bar  0.75"] =
      parse_semp ["3  1.5  foo  2.25  bar  0.75"] :=
  ⟨by decide,
    semp_first_line_and_skip.2 [] ["3  1.5  foo  2.25  bar  0.75"]
      "iter    norm" (by decide)⟩

/-- Full characterisation of the semp loop: under a successful run each
series extends its accumulator with one point per qualifying line, the
x-coordinate being the running counter and the y-values the tokens at
remaining positions 0, 2 and 4 after the check token. -/
theorem sempRun_columns :
    ∀ (ls : List String) (i : ℕ) (an ar am : List (ℚ × ℚ))
      (out : List (ℚ × ℚ) × List (ℚ × ℚ) × List (ℚ × ℚ)),
      sempRun ls i (an, ar, am) = some out →
      out.1 = an ++ (qualEnumFrom i ls).map (fun q => ((q.1 : ℚ), valAt q.2 0)) ∧
      out.2.1 = ar ++ (qualEnumFrom i ls).map (fun q => ((q.1 : ℚ), valAt q.2 2)) ∧
      out.2.2 = am ++ (qualEnumFrom i ls).map (fun q => ((q.1 : ℚ), valAt q.2 4))
  | [], i, an, ar, am, out, h => by
    have he := Option.some.inj h
    rw [← he]
    simp [qualEnumFrom]
  | l :: ls, i, an, ar, am, out, h => by
    cases hsp : splitWhitespace l with
    | nil =>
      simp only [sempRun, hsp] at h
      have hq : qualEnumFrom i (l :: ls) = qualEnumFrom i ls := by
        simp only [qualEnumFrom, hsp]
      rw [hq]
      exact sempRun_columns ls i an ar am out h
    | cons t rest =>
      cases ht : t.data.all isNumericChar
      · simp only [sempRun, hsp, ht] at h
        have hq : qualEnumFrom i (l :: ls) = qualEnumFrom i ls := by
          simp only [qualEnumFrom, hsp, ht]
          rfl
        rw [hq]
        exact sempRun_columns ls i an ar am out (by exact h)
      · cases hv : sempVals rest with
        | none =>
          simp only [sempRun, hsp, ht, hv] at h
          exact Option.noConfusion h
        | some v =>
          obtain ⟨n, r, m⟩ := v
          simp only [sempRun, hsp, ht, hv] at h
          obtain ⟨hv0, hv2, hv4, _⟩ := sempVals_eq rest n r m hv
          have ih := sempRun_columns ls (i + 1) (an ++ [((i : ℚ), n)])
            (ar ++ [((i : ℚ), r)]) (am ++ [((i : ℚ), m)]) out (by exact h)
          have hq : qualEnumFrom i (l :: ls) =
              (i, rest) :: qualEnumFrom (i + 1) ls := by
            simp only [qualEnumFrom, hsp, ht]
            rfl
          rw [hq]
          simp only [List.map_cons, hv0, hv2, hv4]
          refine ⟨?_, ?_, ?_⟩
          · rw [ih.1, List.append_assoc]
            rfl
          · rw [ih.2.1, List.append_assoc]
            rfl
          · rw [ih.2.2, List.append_assoc]
            rfl

/-- C6 counterexample: on the qualifying line
`"0 10 11 12 13 14 15 16"` (tokens after the check token: 10…16 at
positions 0…6) the parser produces y-values 10, 12, 14 — the tokens at
positions 0, 2 and 4 after the check token — not the 12, 14, 16 that the
claim's "positions 2, 4 and 6 counting from 0" predicts. -/
theorem semp_positions_cex :
    parse_semp ["0 10 11 12 13 14 15 16"] =
      some [⟨"Norm", [(0, 10)]⟩, ⟨"RMSD", [(0, 12)]⟩, ⟨"MAX", [(0, 14)]⟩] ∧
    parse_semp_claim ["0 10 11 12 13 14 15 16"] =
      some [⟨"Norm", [(0, 12)]⟩, ⟨"RMSD", [(0, 14)]⟩, ⟨"MAX", [(0, 16)]⟩] ∧
    parse_semp ["0 10 11 12 13 14 15 16"] ≠
      parse_semp_claim ["0 10 11 12 13 14 15 16"] := by
  exact ⟨by decide, by decide, by decide⟩

/-- C6 amended: whenever `parse_semp` returns, its output is exactly the
three series Norm, RMSD, MAX, where each qualifying line (first token
fully numeric) contributes one point to each series, the x-coordinate
being the zero-based qualifying-line counter and the y-values being the
parsed tokens at positions 0, 2 and 4 — not 2, 4 and 6 — counting from 0
after the check token. -/
theorem parse_semp_columns (ls : List String) (out : List DataSet)
    (h : parse_semp ls = some out) :
    out = [⟨"Norm", (qualEnumFrom 0 ls).map (fun q => ((q.1 : ℚ), valAt q.2 0))⟩,
           ⟨"RMSD", (qualEnumFrom 0 ls).map (fun q => ((q.1 : ℚ), valAt q.2 2))⟩,
           ⟨"MAX", (qualEnumFrom 0 ls).map (fun q => ((q.1 : ℚ), valAt q.2 4))⟩] := by
  unfold parse_semp at h
  cases hs : sempRun ls 0 ([], [], []) with
  | none =>
    rw [hs] at h
    exact Option.noConfusion h
  | some acc =>
    obtain ⟨an, ar, am⟩ := acc
    rw [hs, Option.map_some'] at h
    obtain ⟨h1, h2, h3⟩ := sempRun_columns ls 0 [] [] [] (an, ar, am) hs
    have h1' : an = (qualEnumFrom 0 ls).map (fun q => ((q.1 : ℚ), valAt q.2 0)) := by
      simpa using h1
    have h2' : ar = (qualEnumFrom 0 ls).map (fun q => ((q.1 : ℚ), valAt q.2 2)) := by
      simpa using h2
    have h3' : am = (qualEnumFrom 0 ls).map (fun q => ((q.1 : ℚ), valAt q.2 4)) := by
      simpa using h3
    rw [← Option.some.inj h, h1', h2', h3']

/-- C6 witness: the characterisation applied to the sample line. -/
theorem parse_semp_columns_witness :
    [DataSet.mk "Norm" [((0 : ℚ), Rat.divInt 3 2)],
     DataSet.mk "RMSD" [((0 : ℚ), Rat.divInt 9 4)],
     DataSet.mk "MAX" [((0 : ℚ), Rat.divInt 3 4)]] =
      [⟨"Norm", (qualEnumFrom 0 ["3  1.5  foo  2.25  bar  0.75"]).map
          (fun q => ((q.1 : ℚ), valAt q.2 0))⟩,
       ⟨"RMSD", (qualEnumFrom 0 ["3  1.5  foo  2.25  bar  0.75"]).map
          (fun q => ((q.1 : ℚ), valAt q.2 2))⟩,
       ⟨"MAX", (qualEnumFrom 0 ["3  1.5  foo  2.25  bar  0.75"]).map
          (fun q => ((q.1 : ℚ), valAt q.2 4))⟩] :=
  parse_semp_columns ["3  1.5  foo  2.25  bar  0.75"]
    [DataSet.mk "Norm" [((0 : ℚ), Rat.divInt 3 2)],
     DataSet.mk "RMSD" [((0 : ℚ), Rat.divInt 9 4)],
     DataSet.mk "MAX" [((0 : ℚ), Rat.divInt 3 4)]] (by decide)

/-! ## Claim C10: `Fetch::parse` of `src/main.rs` versus the Norm series -/

/-- Whenever the semp loop succeeds, the `main.rs` single-series loop
succeeds on the same lines with the same counter and produces exactly
the Norm accumulator. -/
theorem mainRun_eq_norm :
    ∀ (ls : List String) (i : ℕ) (an ar am : List (ℚ × ℚ))
      (out : List (ℚ × ℚ) × List (ℚ × ℚ) × List (ℚ × ℚ)),
      sempRun ls i (an, ar, am) = some out → mainRun ls i an = some out.1
  | [], _, an, ar, am, out, h => by
    rw [← Option.some.inj h]
    rfl
  | l :: ls, i, an, ar, am, out, h => by
    cases hsp : splitWhitespace l with
    | nil =>
      simp only [sempRun, hsp] at h
      simp only [mainRun, hsp]
      exact mainRun_eq_norm ls i an ar am out h
    | cons t rest =>
      cases ht : t.data.all isNumericChar
      · simp only [sempRun, hsp, ht] at h
        simp only [mainRun, hsp, ht]
        exact mainRun_eq_norm ls i an ar am out (by exact h)
      · cases hv : sempVals rest with
        | none =>
          simp only [sempRun, hsp, ht, hv] at h
          exact Option.noConfusion h
        | some v =>
          obtain ⟨n, r, m⟩ := v
          simp only [sempRun, hsp, ht, hv] at h
          obtain ⟨_, _, _, hmain⟩ := sempVals_eq rest n r m hv
          simp only [mainRun, hsp, ht, hmain]
          exact mainRun_eq_norm ls (i + 1) (an ++ [((i : ℚ), n)])
            (ar ++ [((i : ℚ), r)]) (am ++ [((i : ℚ), m)]) out (by exact h)

/-- C10 counterexample: on the input line `"3 1.5"` the `main.rs` parser
returns the point `(0, 1.5)`, while `parse_semp` panics (its `nth(1)`
finds no third token), returning no series at all — so the two parsers
do *not* agree on every input string. -/
theorem mainParse_semp_divergence_cex :
    mainFetchParse ["3 1.5"] = some [(0, Rat.divInt 3 2)] ∧
    parse_semp ["3 1.5"] = none := by
  exact ⟨by decide, by decide⟩

/-- C10 amended: on every input on which `parse_semp` returns (does not
panic), `Fetch::parse` of `src/main.rs` returns exactly the point
sequence of the first ("Norm") series: same qualifying-line predicate,
same zero-based counter as x, y from the token immediately after the
check token.  (On inputs where `parse_semp` panics — e.g. a qualifying
line with fewer than six following tokens — `Fetch::parse` may still
return, so the unconditional claim fails; see the counterexample.) -/
theorem mainParse_refines_semp (ls : List String) (out : List DataSet)
    (h : parse_semp ls = some out) :
    ∃ pts rmsd mx, out = [⟨"Norm", pts⟩, ⟨"RMSD", rmsd⟩, ⟨"MAX", mx⟩] ∧
      mainFetchParse ls = some pts := by
  unfold parse_semp at h
  cases hs : sempRun ls 0 ([], [], []) with
  | none =>
    rw [hs] at h
    exact Option.noConfusion h
  | some acc =>
    obtain ⟨an, ar, am⟩ := acc
    rw [hs, Option.map_some'] at h
    refine ⟨an, ar, am, (Option.some.inj h).symm, ?_⟩
    exact mainRun_eq_norm ls 0 [] [] [] (an, ar, am) hs

/-- C10 witness: the refinement applied to a concrete input. -/
theorem mainParse_refines_semp_witness :
    ∃ pts rmsd mx,
      [DataSet.mk "Norm" [((0 : ℚ), 1)], DataSet.mk "RMSD" [((0 : ℚ), 3)],
        DataSet.mk "MAX" [((0 : ℚ), 5)]] =
        [⟨"Norm", pts⟩, ⟨"RMSD", rmsd⟩, ⟨"MAX", mx⟩] ∧
      mainFetchParse ["3 1 2 3 4 5"] = some pts :=
  mainParse_refines_semp ["3 1 2 3 4 5"]
    [DataSet.mk "Norm" [((0 : ℚ), 1)], DataSet.mk "RMSD" [((0 : ℚ), 3)],
      DataSet.mk "MAX" [((0 : ℚ), 5)]] (by decide)

/-! ## Claim C2: the pbqff phase-reset parser -/

/-- The pbqff loop distributes over concatenation. -/
theorem pbqffRun_append :
    ∀ (a b : List String) (st : List (ℚ × ℚ) × Bool),
      pbqffRun (a ++ b) st = (pbqffRun a st).bind (pbqffRun b)
  | [], _, _ => rfl
  | l :: a, b, st => by
    simp only [List.cons_append, pbqffRun]
    cases pbqffStep st l with
    | none => rfl
    | some st' =>
      simp only [Option.some_bind]
      exact pbqffRun_append a b st'

/-- Lines carrying neither marker leave the state untouched. -/
theorem pbqffRun_inert :
    ∀ (c : List String) (st : List (ℚ × ℚ) × Bool),
      (∀ l ∈ c, isIterLine l = false ∧ isDropLine l = false) →
      pbqffRun c st = some st
  | [], _, _ => rfl
  | l :: c, st, h => by
    obtain ⟨hil, hdl⟩ := h l (List.mem_cons_self l c)
    have hstep : pbqffStep st l = some st := by
      simp only [pbqffStep, hil, hdl]
      rfl
    simp only [pbqffRun, hstep, Option.some_bind]
    exact pbqffRun_inert c st (fun x hx => h x (List.mem_cons_of_mem l hx))

/-- Over iteration-free lines the accumulated data never changes (only
the drop flag may be set). -/
theorem pbqffRun_iterfree :
    ∀ (f : List String) (data : List (ℚ × ℚ)) (dd : Bool),
      (∀ l ∈ f, isIterLine l = false) →
      ∃ dd', pbqffRun f (data, dd) = some (data, dd')
  | [], data, dd, _ => ⟨dd, rfl⟩
  | l :: f, data, dd, h => by
    have hil := h l (List.mem_cons_self l f)
    have hstep : pbqffStep (data, dd) l =
        some (data, if isDropLine l then true else dd) := by
      simp only [pbqffStep, hil]
      rfl
    obtain ⟨dd', hrest⟩ := pbqffRun_iterfree f data
      (if isDropLine l then true else dd)
      (fun x hx => h x (List.mem_cons_of_mem l hx))
    refine ⟨dd', ?_⟩
    simp only [pbqffRun, hstep, Option.some_bind]
    exact hrest

/-- Over drop-marker-free lines starting with a cleared flag, the loop
appends exactly the iter-points of those lines. -/
theorem pbqffRun_dropfree :
    ∀ (e : List String) (data : List (ℚ × ℚ)),
      (∀ l ∈ e, isDropLine l = false) →
      pbqffRun e (data, false) =
        (iterPointsList e).map (fun ps => (data ++ ps, false))
  | [], data, _ => by simp [iterPointsList, pbqffRun]
  | l :: e, data, h => by
    have hdl := h l (List.mem_cons_self l e)
    have htail := fun x hx => h x (List.mem_cons_of_mem l hx)
    cases hil : isIterLine l
    · have hstep : pbqffStep (data, false) l = some (data, false) := by
        simp only [pbqffStep, hil, hdl]
        rfl
      simp only [pbqffRun, hstep, Option.some_bind, iterPointsList, hil]
      rw [pbqffRun_dropfree e data htail]
      rfl
    · cases hip : iterPoint l with
      | none =>
        have hstep : pbqffStep (data, false) l = none := by
          simp only [pbqffStep, hil, hdl, hip]
          rfl
        simp only [pbqffRun, hstep, Option.none_bind, iterPointsList, hil, hip]
        rfl
      | some p =>
        have hstep : pbqffStep (data, false) l = some (data ++ [p], false) := by
          simp only [pbqffStep, hil, hdl, hip]
          rfl
        simp only [pbqffRun, hstep, Option.some_bind, iterPointsList, hil, hip]
        rw [pbqffRun_dropfree e (data ++ [p]) htail]
        cases iterPointsList e with
        | none => rfl
        | some ps => simp [List.append_assoc]

/-- Iteration-free lines contribute no iter-points. -/
theorem iterPointsList_iterfree :
    ∀ (f : List String), (∀ l ∈ f, isIterLine l = false) →
      iterPointsList f = some []
  | [], _ => rfl
  | l :: f, h => by
    have hil := h l (List.mem_cons_self l f)
    simp only [iterPointsList, hil]
    exact iterPointsList_iterfree f (fun x hx => h x (List.mem_cons_of_mem l hx))

/-- An iteration-free suffix contributes no iter-points. -/
theorem iterPointsList_append_iterfree (f : List String)
    (hf : ∀ l ∈ f, isIterLine l = false) :
    ∀ (e : List String), iterPointsList (e ++ f) = iterPointsList e
  | [] => by
    simp only [List.nil_append]
    rw [iterPointsList_iterfree f hf]
    rfl
  | l :: e => by
    cases hil : isIterLine l
    · simp only [List.cons_append, iterPointsList, hil, List.append_eq]
      exact iterPointsList_append_iterfree f hf e
    · simp only [List.cons_append, iterPointsList, hil, List.append_eq]
      rw [iterPointsList_append_iterfree f hf e]

/-- An iteration-free prefix contributes no iter-points. -/
theorem iterPointsList_inert_front :
    ∀ (c : List String), (∀ l ∈ c, isIterLine l = false) →
      ∀ (b : List String), iterPointsList (c ++ b) = iterPointsList b
  | [], _, _ => rfl
  | l :: c, h, b => by
    have hil := h l (List.mem_cons_self l c)
    simp only [List.cons_append, iterPointsList, hil]
    exact iterPointsList_inert_front c
      (fun x hx => h x (List.mem_cons_of_mem l hx)) b

/-- Two prefixes of the same character list agree on their first
character. -/
theorem listStartsWith_head :
    ∀ (l p q : List Char) (c c' : Char),
      listStartsWith l (c :: p) = true → listStartsWith l (c' :: q) = true →
      c = c'
  | [], _, _, _, _, h, _ => by simp [listStartsWith] at h
  | x :: l, p, q, c, c', h, h' => by
    simp only [listStartsWith, Bool.and_eq_true, decide_eq_true_eq] at h h'
    rw [← h.1, ← h'.1]

/-- A line beginning with the drop marker cannot begin with the
iteration marker (the markers start with different characters). -/
theorem isDropLine_not_iter (l : String) (h : isDropLine l = true) :
    isIterLine l = false := by
  cases hit : isIterLine l
  · rfl
  · exfalso
    have hd : listStartsWith l.data ('f' :: "inished dropping".data) = true := by
      have he : "finished dropping".data = 'f' :: "inished dropping".data := rfl
      unfold isDropLine strStartsWith at h
      rw [he] at h
      exact h
    have hi : listStartsWith l.data ('[' :: "iter ".data) = true := by
      have he : "[iter ".data = '[' :: "iter ".data := rfl
      unfold isIterLine strStartsWith at hit
      rw [he] at hit
      exact hit
    have hcc := listStartsWith_head l.data _ _ 'f' '[' hd hi
    exact absurd hcc (by decide)

/-- C2: for an input decomposed as `a ++ d :: c ++ it :: e ++ f` where
`d` is a drop-marker line, `c` contains neither marker, `it` is an
iteration line, `e` is drop-marker-free and `f` is iteration-free —
i.e. `d` is the *last* drop marker that is followed by iteration lines,
`it` being the first iteration line after it — a successful
`parse_pbqff` returns the single "Points remaining" series holding
exactly the points of the iteration lines after `d`: everything
accumulated before the drop is cleared on the first iteration line
after it, and the points of `it` and of the iteration lines of `e` are
what remains. -/
theorem pbqff_phase_reset (a : List String) (d it : String)
    (c e f : List String) (out : List DataSet)
    (hd : isDropLine d = true)
    (hc : ∀ l ∈ c, isIterLine l = false ∧ isDropLine l = false)
    (hit : isIterLine it = true)
    (he : ∀ l ∈ e, isDropLine l = false)
    (hf : ∀ l ∈ f, isIterLine l = false)
    (hp : parse_pbqff (a ++ d :: (c ++ it :: (e ++ f))) = some out) :
    ∃ pts, iterPointsList (c ++ it :: (e ++ f)) = some pts ∧
      out = [⟨"Points remaining", pts⟩] := by
  unfold parse_pbqff at hp
  cases hrun : pbqffRun (a ++ d :: (c ++ it :: (e ++ f))) ([], false) with
  | none =>
    rw [hrun] at hp
    exact Option.noConfusion hp
  | some stf =>
    rw [hrun, Option.map_some'] at hp
    rw [pbqffRun_append a _ ([], false)] at hrun
    cases hsa : pbqffRun a ([], false) with
    | none =>
      rw [hsa] at hrun
      exact Option.noConfusion hrun
    | some sa =>
      rw [hsa, Option.some_bind] at hrun
      have hstepd : pbqffStep sa d = some (sa.1, true) := by
        simp only [pbqffStep, hd, isDropLine_not_iter d hd]
        rfl
      simp only [pbqffRun, hstepd, Option.some_bind] at hrun
      rw [pbqffRun_append c _ (sa.1, true),
        pbqffRun_inert c (sa.1, true) hc, Option.some_bind] at hrun
      cases hip : iterPoint it with
      | none =>
        have hstepit : pbqffStep (sa.1, true) it = none := by
          simp only [pbqffStep, hit, hip, ite_self]
          rfl
        simp only [pbqffRun, hstepit, Option.none_bind] at hrun
        exact Option.noConfusion hrun
      | some p =>
        have hstepit : pbqffStep (sa.1, true) it = some ([p], false) := by
          simp only [pbqffStep, hit, hip, ite_self]
          rfl
        simp only [pbqffRun, hstepit, Option.some_bind] at hrun
        rw [pbqffRun_append e f ([p], false), pbqffRun_dropfree e [p] he] at hrun
        cases hie : iterPointsList e with
        | none =>
          rw [hie] at hrun
          exact Option.noConfusion hrun
        | some ps =>
          rw [hie] at hrun
          simp only [Option.map_some', Option.some_bind] at hrun
          obtain ⟨dd', hff⟩ := pbqffRun_iterfree f ([p] ++ ps) false hf
          rw [hff] at hrun
          have hstf : stf = ([p] ++ ps, dd') := (Option.some.inj hrun).symm
          refine ⟨p :: ps, ?_, ?_⟩
          · rw [iterPointsList_inert_front c (fun l hl => (hc l hl).1)
              (it :: (e ++ f))]
            simp only [iterPointsList, hit, hip, Option.some_bind]
            rw [iterPointsList_append_iterfree f hf e, hie]
            rfl
          · have houtp := Option.some.inj hp
            rw [← houtp, hstf]
            rfl

/-- C2 witness: the spec's own example — two iteration lines, a drop
marker, then two fresh iteration lines — keeps exactly the two points
after the drop. -/
theorem pbqff_phase_reset_witness :
    ∃ pts,
      iterPointsList ([] ++ "[iter 1 x x x x x 9" ::
        (["[iter 2 x x x x x 8"] ++ [])) = some pts ∧
      [DataSet.mk "Points remaining" [((1 : ℚ), 9), ((2 : ℚ), 8)]] =
        [⟨"Points remaining", pts⟩] :=
  pbqff_phase_reset ["[iter 1 x x x x x 5"] "finished dropping"
    "[iter 1 x x x x x 9" [] ["[iter 2 x x x x x 8"] []
    [DataSet.mk "Points remaining" [((1 : ℚ), 9), ((2 : ℚ), 8)]]
    (by decide) (by decide) (by decide) (by decide) (by decide) (by decide)
